import Mathlib

/-!
Shallow embedding of the supply-chain analytics pipeline
(stages 02_transform_data, 03_predictive_analytics, 04_prescriptive_analytics).

Numeric columns are modelled as exact rationals.  `round` is Mathlib's
round-half-up on `ℚ`; numpy rounds half-to-even, and the two agree except at
exact decimal ties, which none of the verified properties depends on (the one
tie that occurs, `round 49.5 = 50` in the safety-stock check, is the same
under both conventions).  Division producing IEEE `inf`/`nan` is modelled
explicitly by the `NpVal` type where the pipeline can hit a zero denominator.
-/

namespace SupplyChain

/-- pandas `Series.round(3)`: rounding to 3 decimal places over `ℚ`. -/
def round3 (x : ℚ) : ℚ := (round (1000 * x) : ℚ) / 1000

/-- pandas `Series.round(1)`: rounding to 1 decimal place over `ℚ`. -/
def round1 (x : ℚ) : ℚ := (round (10 * x) : ℚ) / 10

/-- `round` on `ℚ` is monotone. -/
theorem round_rat_mono {x y : ℚ} (h : x ≤ y) : round x ≤ round y := by
  rw [round_eq, round_eq]
  exact Int.floor_mono (by linarith)

theorem round3_nonneg {x : ℚ} (hx : 0 ≤ x) : 0 ≤ round3 x := by
  unfold round3
  have h0 : round (0 : ℚ) ≤ round (1000 * x) := round_rat_mono (by linarith)
  rw [round_zero] at h0
  have : (0 : ℚ) ≤ (round (1000 * x) : ℚ) := by exact_mod_cast h0
  linarith

theorem round3_le_one {x : ℚ} (hx : x ≤ 1) : round3 x ≤ 1 := by
  unfold round3
  have h1 : round (1000 * x) ≤ round ((1000 : ℤ) : ℚ) := round_rat_mono (by push_cast; linarith)
  rw [round_intCast] at h1
  have : (round (1000 * x) : ℚ) ≤ 1000 := by exact_mod_cast h1
  linarith

theorem round1_mono {x y : ℚ} (h : x ≤ y) : round1 x ≤ round1 y := by
  unfold round1
  have := round_rat_mono (show 10 * x ≤ 10 * y by linarith)
  have h2 : (round (10 * x) : ℚ) ≤ (round (10 * y) : ℚ) := by exact_mod_cast this
  linarith

/-- Executable counterpart of `np.round(np.sqrt q)` on a nonnegative rational
radicand: the integer square root of `⌊q⌋` is the floor of `√q`, and the
comparison `(2n+1)² ≤ 4q` decides whether `√q` reaches the next half-integer.
Fidelity to `round ∘ Real.sqrt` is proved in `roundSqrt_eq_round_sqrt`. -/
def roundSqrt (q : ℚ) : ℕ :=
  if ((2 * Nat.sqrt (Int.toNat ⌊q⌋) + 1 : ℚ)) ^ 2 ≤ 4 * q then
    Nat.sqrt (Int.toNat ⌊q⌋) + 1
  else Nat.sqrt (Int.toNat ⌊q⌋)

theorem roundSqrt_eq_round_sqrt (q : ℚ) (hq : 0 ≤ q) :
    (roundSqrt q : ℤ) = round (Real.sqrt (q : ℝ)) := by
  unfold roundSqrt
  set n := Nat.sqrt (Int.toNat ⌊q⌋) with hn
  have htn : ((Int.toNat ⌊q⌋ : ℤ)) = ⌊q⌋ := Int.toNat_of_nonneg (Int.floor_nonneg.mpr hq)
  have htnq : ((Int.toNat ⌊q⌋ : ℚ)) = ((⌊q⌋ : ℤ) : ℚ) := by exact_mod_cast htn
  have hfl : ((Int.toNat ⌊q⌋ : ℚ)) ≤ q := by
    rw [htnq]
    exact_mod_cast Int.floor_le q
  have hfl2 : q < (Int.toNat ⌊q⌋ : ℚ) + 1 := by
    rw [htnq]
    exact_mod_cast Int.lt_floor_add_one q
  have hnsq : ((n : ℚ)) ^ 2 ≤ q := by
    refine le_trans ?_ hfl
    exact_mod_cast Nat.sqrt_le' (Int.toNat ⌊q⌋)
  have hqlt : q < ((n : ℚ) + 1) ^ 2 := by
    have h1 : Int.toNat ⌊q⌋ + 1 ≤ (n + 1) ^ 2 := Nat.succ_le_of_lt (Nat.lt_succ_sqrt' _)
    calc q < (Int.toNat ⌊q⌋ : ℚ) + 1 := hfl2
    _ ≤ ((n : ℚ) + 1) ^ 2 := by exact_mod_cast h1
  have hqR : (0 : ℝ) ≤ (q : ℚ) := by exact_mod_cast hq
  have hs_lb : ((n : ℝ)) ≤ Real.sqrt (q : ℝ) := by
    rw [Real.le_sqrt (by positivity) hqR]
    exact_mod_cast hnsq
  have hs_ub : Real.sqrt (q : ℝ) < (n : ℝ) + 1 := by
    rw [Real.sqrt_lt' (by positivity)]
    exact_mod_cast hqlt
  by_cases hc : ((2 * n + 1 : ℚ)) ^ 2 ≤ 4 * q
  · rw [if_pos hc]
    have hhalf : ((n : ℝ)) + 1 / 2 ≤ Real.sqrt (q : ℝ) := by
      rw [Real.le_sqrt (by positivity) hqR]
      have hcR : ((2 * (n : ℝ) + 1)) ^ 2 ≤ 4 * (q : ℝ) := by exact_mod_cast hc
      nlinarith
    rw [round_eq]
    symm
    rw [Int.floor_eq_iff]
    constructor
    · push_cast
      linarith
    · push_cast
      linarith
  · rw [if_neg hc]
    have hhalf : Real.sqrt (q : ℝ) < (n : ℝ) + 1 / 2 := by
      rw [Real.sqrt_lt' (by positivity)]
      push_neg at hc
      have hcR : 4 * (q : ℝ) < ((2 * (n : ℝ) + 1)) ^ 2 := by exact_mod_cast hc
      nlinarith
    rw [round_eq]
    symm
    rw [Int.floor_eq_iff]
    constructor
    · push_cast
      linarith
    · push_cast
      linarith

/-!
Model of numpy/pandas float arithmetic where the pipeline can divide by zero.
`num q` is a finite value, `posInf`/`negInf` are the IEEE infinities and `nan`
is IEEE NaN.  `fillna(0)` replaces only NaN; `clip(upper=u)` maps `+inf` to
`u` and leaves NaN and `-inf` alone, exactly as pandas does.
-/

inductive NpVal where
  | num : ℚ → NpVal
  | posInf : NpVal
  | negInf : NpVal
  | nan : NpVal
deriving DecidableEq

/-- IEEE division of a float by a finite float `b`, as numpy performs it on a
Series (with warnings suppressed, as the source does): `0/0` is NaN, `a/0` for
`a > 0` is `+inf`, for `a < 0` is `-inf`. -/
def NpVal.divQ : NpVal → ℚ → NpVal
  | NpVal.num a, b =>
      if b = 0 then
        (if a = 0 then NpVal.nan else if 0 < a then NpVal.posInf else NpVal.negInf)
      else NpVal.num (a / b)
  | NpVal.posInf, b => if b < 0 then NpVal.negInf else NpVal.posInf
  | NpVal.negInf, b => if b < 0 then NpVal.posInf else NpVal.negInf
  | NpVal.nan, _ => NpVal.nan

/-- pandas `Series.fillna(0)`: replaces NaN (only NaN) by 0. -/
def NpVal.fillna0 : NpVal → NpVal
  | NpVal.nan => NpVal.num 0
  | v => v

/-- pandas `Series.clip(upper=u)`: caps finite values and `+inf` at `u`;
NaN and `-inf` pass through. -/
def NpVal.clipUpper (u : ℚ) : NpVal → NpVal
  | NpVal.num a => NpVal.num (min a u)
  | NpVal.posInf => NpVal.num u
  | NpVal.negInf => NpVal.negInf
  | NpVal.nan => NpVal.nan

/-- pandas `Series.round(3)` lifted to `NpVal` (rounding leaves inf/NaN). -/
def NpVal.round3v : NpVal → NpVal
  | NpVal.num a => NpVal.num (round3 a)
  | v => v

/-!
03_predictive_analytics.py, stockout-risk features (lines 136-147).
`demand_std` may itself be NaN (pandas `std` of a single transaction), so it
enters as an `NpVal`; the other inputs are plain numbers.
-/

/-- `(demand_std / avg_demand).fillna(0).clip(upper=2)` (line 137-139). -/
def demand_volatility (demand_std : NpVal) (avg_demand : ℚ) : NpVal :=
  ((demand_std.divQ avg_demand).fillna0).clipUpper 2

/-- `(stockout_count / transaction_count).fillna(0)` (line 141-143). -/
def historical_stockout_rate (stockout_count transaction_count : ℚ) : NpVal :=
  ((NpVal.num stockout_count).divQ transaction_count).fillna0

/-- `(current_stock / avg_demand).fillna(0).clip(upper=365)` (line 145-147). -/
def days_of_stock (current_stock avg_demand : ℚ) : NpVal :=
  (((NpVal.num current_stock).divQ avg_demand).fillna0).clipUpper 365

/-!
03_predictive_analytics.py, composite score and category (lines 149-162).
The score is computed from the already-materialized finite feature values.
-/

/-- Composite stockout risk score (lines 150-155): weighted sum of the four
features, with `clip(upper=1)` written as `min · 1`, rounded to 3 decimals. -/
def stockout_risk_score (hist_rate volatility days_stock lead_time max_lead : ℚ) : ℚ :=
  round3 (0.30 * hist_rate
    + 0.25 * min volatility 1
    + 0.25 * (1 - min (days_stock / 30) 1)
    + 0.20 * (lead_time / max_lead))

/-- `pd.cut(score, bins=[0, 0.35, 0.65, 1.0], labels=[...])` (lines 157-162).
`pd.cut` uses intervals half-open on the left: `(0, 0.35]`, `(0.35, 0.65]`,
`(0.65, 1.0]`; a value outside all three bins (in particular exactly 0)
receives no label (NaN), modelled as `none`. -/
def risk_category (score : ℚ) : Option String :=
  if 0 < score ∧ score ≤ 0.35 then some "Low Risk"
  else if 0.35 < score ∧ score ≤ 0.65 then some "Medium Risk"
  else if 0.65 < score ∧ score ≤ 1 then some "High Risk"
  else none

/-!
02_transform_data.py.
-/

/-- `(sales.quantity_fulfilled / sales.quantity_ordered).round(3)` (line 71).
There is no guard: a zero `quantity_ordered` flows through IEEE division. -/
def fulfillment_rate (quantity_fulfilled quantity_ordered : ℚ) : NpVal :=
  ((NpVal.num quantity_fulfilled).divQ quantity_ordered).round3v

/-- `drop_duplicates(subset=[key])` with pandas' default `keep=first` behaviour
(lines 39-40, applied with `key = transaction_id` on sales and
`key = order_id` on supply orders): scan in order, keep a row only when its
key has not been seen before.  `seen` is the accumulator of keys already kept
(the whole-table call starts from `[]`). -/
def drop_duplicates {α κ : Type} [DecidableEq κ] (key : α → κ) :
    List α → List κ → List α
  | [], _ => []
  | x :: xs, seen =>
      if key x ∈ seen then drop_duplicates key xs seen
      else x :: drop_duplicates key xs (key x :: seen)

/-!
03_predictive_analytics.py, demand forecasting (lines 31-67).
Dates are modelled as day indices (`ℕ`); the gap-filled daily series of a
product is a `List ℚ` of one quantity per consecutive day, ending at
`last_date`.
-/

/-- One output row of `forecasts_list` (lines 61-67). -/
structure ForecastRow where
  product_id : String
  forecast_date : ℕ
  forecasted_demand : ℚ
  lower_bound : ℚ
  upper_bound : ℚ
deriving DecidableEq

/-- `daily_demand.ewm(span=7, adjust=False).mean()` final value (lines 51-54):
with span 7 the smoothing factor is `α = 2/(7+1) = 1/4` and, unadjusted, the
recursion is `y₀ = x₀`, `yₜ = (1-α)·yₜ₋₁ + α·xₜ`; the forecast uses the last
value. An empty series has no last value (the eligible branch never sees one,
since it requires more than 60 observations). -/
def ema7 : List ℚ → ℚ
  | [] => 0
  | x :: rest => rest.foldl (fun y z => (3 / 4) * y + (1 / 4) * z) x

/-- Per-product forecasting step (lines 46-67): if the gap-filled series is
strictly longer than 60 days (`if len(daily_demand) > 60`), emit 30 rows for
the 30 days after `last_date`, each carrying the final EMA as the point
forecast with bounds `0.80×`/`1.20×`, all rounded to 1 decimal; otherwise the
product is skipped and contributes no rows. -/
def forecastProduct (prod_id : String) (daily_quantity : List ℚ) (last_date : ℕ) :
    List ForecastRow :=
  if 60 < daily_quantity.length then
    (List.range 30).map (fun i =>
      { product_id := prod_id
        forecast_date := last_date + 1 + i
        forecasted_demand := round1 (ema7 daily_quantity)
        lower_bound := round1 (ema7 daily_quantity * 0.80)
        upper_bound := round1 (ema7 daily_quantity * 1.20) })
  else []

/-!
04_prescriptive_analytics.py, EOQ / safety stock / reorder point (lines 40-63).
-/

/-- `ordering_cost = 100` (line 42). -/
def ordering_cost : ℚ := 100

/-- `holding_cost_rate = 0.25` (line 43). -/
def holding_cost_rate : ℚ := 1 / 4

/-- `holding_cost = unit_cost * holding_cost_rate` (line 46). -/
def holding_cost (unit_cost : ℚ) : ℚ := unit_cost * holding_cost_rate

/-- `np.sqrt(2 * annual_demand * ordering_cost / holding_cost).round(0)`
(lines 49-52), in the executable `roundSqrt` form; the claimed
`round ∘ Real.sqrt` reading is proved against it in the C4 theorem.  Defined
for a positive holding cost; the source's unguarded zero-denominator behaviour
is modelled separately by `eoq_radicand`. -/
def optimal_order_quantity (annual_demand unit_cost : ℚ) : ℕ :=
  roundSqrt (2 * annual_demand * ordering_cost / holding_cost unit_cost)

/-- The division inside the EOQ formula (lines 49-52) as numpy evaluates it:
`2 * annual_demand * ordering_cost / holding_cost` with no guard on a zero
holding cost. -/
def eoq_radicand (annual_demand unit_cost : ℚ) : NpVal :=
  (NpVal.num (2 * annual_demand * ordering_cost)).divQ (holding_cost unit_cost)

/-- `(1.65 * demand_std * np.sqrt(lead_time_days)).round(0)` (lines 55-57), in
executable form via `roundSqrt ((1.65·σ)² · L)`; equality with
`round (1.65·σ·√L)` for `σ ≥ 0` is proved in the C5 theorem. -/
def safety_stock (demand_std : ℚ) (lead_time_days : ℕ) : ℕ :=
  roundSqrt ((1.65 * demand_std) ^ 2 * lead_time_days)

/-- `(avg_demand * lead_time_days + safety_stock).round(0)` (lines 60-63). -/
def optimal_reorder_point (avg_demand demand_std : ℚ) (lead_time_days : ℕ) : ℤ :=
  round (avg_demand * lead_time_days + (safety_stock demand_std lead_time_days : ℚ))

/-!
04_prescriptive_analytics.py, supplier ranking (lines 116-135).
Suppliers are identified by their original (input-order) index; the list of
performance scores is indexed the same way.
-/

/-- `1 - avg_delivery_time / avg_delivery_time.max()` (lines 119-121). -/
def cost_efficiency (avg_delivery_time max_avg_delivery_time : ℚ) : ℚ :=
  1 - avg_delivery_time / max_avg_delivery_time

/-- Claim C1: for every product in the risk table, the composite
`stockout_risk_score` equals
`round3 (0.30·hist_rate + 0.25·min(volatility,1) + 0.25·(1 − min(days/30,1))
+ 0.20·(lead_time/max_lead))`, and under the feature ranges the pipeline
guarantees (rate in `[0,1]`, nonnegative volatility and days-of-stock, lead
time between 0 and the positive column maximum) the score lies in `[0,1]`. -/
theorem C1_risk_score_formula_and_bounds
    (h v d lt m : ℚ) (hh0 : 0 ≤ h) (hh1 : h ≤ 1) (hv : 0 ≤ v) (hd : 0 ≤ d)
    (hlt : 0 ≤ lt) (hltm : lt ≤ m) (hm : 0 < m) :
    stockout_risk_score h v d lt m
      = round3 (0.30 * h + 0.25 * min v 1 + 0.25 * (1 - min (d / 30) 1)
          + 0.20 * (lt / m))
    ∧ 0 ≤ stockout_risk_score h v d lt m
    ∧ stockout_risk_score h v d lt m ≤ 1 := by
  refine ⟨rfl, ?_, ?_⟩
  · apply round3_nonneg
    have t1 : 0 ≤ min v 1 := le_min hv zero_le_one
    have t2 : min (d / 30) 1 ≤ 1 := min_le_right _ _
    have t3 : 0 ≤ lt / m := div_nonneg hlt hm.le
    linarith
  · apply round3_le_one
    have t1 : min v 1 ≤ 1 := min_le_right _ _
    have t2 : 0 ≤ min (d / 30) 1 := le_min (by positivity) zero_le_one
    have t3 : lt / m ≤ 1 := (div_le_one hm).mpr hltm
    linarith

/-- Witness for C1 at concrete feature values. -/
theorem C1_witness :
    0 ≤ stockout_risk_score 0 0 0 1 1 ∧ stockout_risk_score 0 0 0 1 1 ≤ 1 :=
  ⟨(C1_risk_score_formula_and_bounds 0 0 0 1 1 (by norm_num) (by norm_num)
      (by norm_num) (by norm_num) (by norm_num) (by norm_num) (by norm_num)).2.1,
   (C1_risk_score_formula_and_bounds 0 0 0 1 1 (by norm_num) (by norm_num)
      (by norm_num) (by norm_num) (by norm_num) (by norm_num) (by norm_num)).2.2⟩

/-- Counterexample to claim C2 as stated: a score of exactly 0 is attainable
(zero stockout rate, zero volatility, 30 days of stock, zero lead time with a
positive column maximum), and `pd.cut` with bins `[0, 0.35, 0.65, 1.0]` gives
it NO category (the first interval is open at 0), not `Low Risk`. -/
theorem C2_counterexample :
    stockout_risk_score 0 0 30 0 5 = 0
    ∧ risk_category (stockout_risk_score 0 0 30 0 5) = none := by
  have hs : stockout_risk_score 0 0 30 0 5 = 0 := by
    unfold stockout_risk_score
    rw [show ((30 : ℚ) / 30) = 1 by norm_num, min_self,
      min_eq_left (by norm_num : (0 : ℚ) ≤ 1)]
    norm_num [round3]
  refine ⟨hs, ?_⟩
  rw [hs]
  norm_num [risk_category]

/-- Claim C2 as amended: the bins are half-open on the lower bound and closed
on the upper, over the attainable range `(0, 1]`: `Low Risk` iff
`0 < score ≤ 0.35`, `Medium Risk` iff `0.35 < score ≤ 0.65`, `High Risk` iff
`0.65 < score ≤ 1`; a score of exactly 0 falls outside every bin. -/
theorem C2_risk_category_bins (s : ℚ) :
    (risk_category s = some "Low Risk" ↔ 0 < s ∧ s ≤ 0.35)
    ∧ (risk_category s = some "Medium Risk" ↔ 0.35 < s ∧ s ≤ 0.65)
    ∧ (risk_category s = some "High Risk" ↔ 0.65 < s ∧ s ≤ 1) := by
  unfold risk_category
  by_cases h1 : 0 < s ∧ s ≤ 0.35
  · rw [if_pos h1]
    refine ⟨iff_of_true rfl h1, iff_of_false (by decide) ?_, iff_of_false (by decide) ?_⟩
    · rintro ⟨a, _⟩
      linarith [h1.2]
    · rintro ⟨a, _⟩
      linarith [h1.2]
  · rw [if_neg h1]
    by_cases h2 : 0.35 < s ∧ s ≤ 0.65
    · rw [if_pos h2]
      refine ⟨iff_of_false (by decide) h1, iff_of_true rfl h2, iff_of_false (by decide) ?_⟩
      rintro ⟨a, _⟩
      linarith [h2.2]
    · rw [if_neg h2]
      by_cases h3 : 0.65 < s ∧ s ≤ 1
      · rw [if_pos h3]
        exact ⟨iff_of_false (by decide) h1, iff_of_false (by decide) h2, iff_of_true rfl h3⟩
      · rw [if_neg h3]
        exact ⟨iff_of_false (by decide) h1, iff_of_false (by decide) h2,
          iff_of_false (by decide) h3⟩

/-- Counterexample to claim C7 as stated: a product with `avg_demand = 0` but
positive stock gets `days_of_stock = 365`, not 0 — the IEEE quotient is `+inf`,
`fillna(0)` only replaces NaN, and `clip(upper=365)` caps `+inf` at 365. -/
theorem C7_counterexample :
    days_of_stock 50 0 = NpVal.num 365 ∧ days_of_stock 50 0 ≠ NpVal.num 0 := by decide

/-- Claim C7 as amended: for `avg_demand = 0`, `demand_volatility` is 0 (its
numerator `demand_std` is then 0 or NaN, both absorbed), while `days_of_stock`
is 0 only when `current_stock = 0` (the NaN of `0/0` is filled); a positive
`current_stock` yields 365 via `clip` of `+inf`.  No numeric fault occurs
either way. -/
theorem C7_zero_demand_features (demand_std : NpVal) (current_stock : ℚ)
    (hstd : demand_std = NpVal.num 0 ∨ demand_std = NpVal.nan)
    (hstock : 0 ≤ current_stock) :
    demand_volatility demand_std 0 = NpVal.num 0
    ∧ days_of_stock current_stock 0
        = (if current_stock = 0 then NpVal.num 0 else NpVal.num 365) := by
  constructor
  · rcases hstd with h | h <;> subst h <;> decide
  · by_cases h : current_stock = 0
    · rw [if_pos h]
      subst h
      decide
    · rw [if_neg h]
      have hpos : 0 < current_stock := lt_of_le_of_ne hstock (Ne.symm h)
      simp [days_of_stock, NpVal.divQ, NpVal.fillna0, NpVal.clipUpper, h, hpos]

/-- Witness for the amended C7 at concrete inputs. -/
theorem C7_witness :
    demand_volatility (NpVal.num 0) 0 = NpVal.num 0
    ∧ days_of_stock 50 0 = (if (50 : ℚ) = 0 then NpVal.num 0 else NpVal.num 365) :=
  C7_zero_demand_features (NpVal.num 0) 50 (Or.inl rfl) (by norm_num)

/-- Counterexample to claim C9 as stated: neither spot is guarded — a zero
`quantity_ordered` drives `fulfillment_rate` to `+inf`, and a zero
`holding_cost` (zero `unit_cost`) drives the EOQ radicand to `+inf`. -/
theorem C9_counterexample :
    fulfillment_rate 5 0 = NpVal.posInf ∧ eoq_radicand 10 0 = NpVal.posInf := by
  constructor
  · simp [fulfillment_rate, NpVal.divQ, NpVal.round3v]
  · simp [eoq_radicand, holding_cost, holding_cost_rate, ordering_cost, NpVal.divQ]

/-- Claim C9 as amended: the two divisions are unguarded.  For a nonzero
denominator each yields the finite documented value, but `quantity_ordered = 0`
with positive fulfilled quantity gives `fulfillment_rate = +inf` (and NaN when
both are 0), and `holding_cost = 0` with positive demand gives an `+inf` EOQ
radicand; the zero-denominator fallbacks exist only in the risk-feature stage
(`fillna(0)`), not here. -/
theorem C9_unguarded_divisions (f q : ℚ) (hq : q ≠ 0) :
    fulfillment_rate f q = NpVal.num (round3 (f / q))
    ∧ (0 < f → fulfillment_rate f 0 = NpVal.posInf)
    ∧ (∀ D : ℚ, 0 < D → eoq_radicand D 0 = NpVal.posInf) := by
  refine ⟨?_, ?_, ?_⟩
  · simp [fulfillment_rate, NpVal.divQ, NpVal.round3v, hq]
  · intro hf
    simp [fulfillment_rate, NpVal.divQ, NpVal.round3v, hf, ne_of_gt hf]
  · intro D hD
    have hnum : 0 < 2 * D * ordering_cost := by
      unfold ordering_cost
      nlinarith
    simp [eoq_radicand, holding_cost, holding_cost_rate, NpVal.divQ, hnum, ne_of_gt hnum]

/-- Witness for the amended C9 at concrete inputs. -/
theorem C9_witness :
    fulfillment_rate 5 2 = NpVal.num (round3 (5 / 2))
    ∧ eoq_radicand 20 0 = NpVal.posInf :=
  ⟨(C9_unguarded_divisions 5 2 (by norm_num)).1,
   (C9_unguarded_divisions 5 2 (by norm_num)).2.2 20 (by norm_num)⟩

/-- The EMA recursion preserves nonnegativity of the running value. -/
theorem foldl_ema_nonneg (l : List ℚ) (init : ℚ) (h0 : 0 ≤ init)
    (hl : ∀ x ∈ l, 0 ≤ x) :
    0 ≤ l.foldl (fun y z => (3 / 4) * y + (1 / 4) * z) init := by
  induction l generalizing init with
  | nil => simpa using h0
  | cons a t ih =>
      have ha : 0 ≤ a := hl a (by simp)
      exact ih ((3 / 4) * init + (1 / 4) * a) (by linarith)
        (fun x hx => hl x (by simp [hx]))

/-- The final EMA of a series of nonnegative quantities is nonnegative. -/
theorem ema7_nonneg (xs : List ℚ) (h : ∀ x ∈ xs, 0 ≤ x) : 0 ≤ ema7 xs := by
  cases xs with
  | nil => simp [ema7]
  | cons x t =>
      exact foldl_ema_nonneg t x (h x (by simp)) (fun y hy => h y (by simp [hy]))

/-- Claim C3: an eligible product (gap-filled series longer than the history
gate, nonnegative daily quantities) yields exactly 30 forecast rows, dated the
30 consecutive days after the last observed date, each carrying the constant
final EMA (rounded to 1 decimal) with bounds `0.80×`/`1.20×` of it, so
`lower_bound ≤ forecasted_demand ≤ upper_bound` in every row. -/
theorem C3_forecast_rows (pid : String) (xs : List ℚ) (d : ℕ)
    (hlen : 60 < xs.length) (hpos : ∀ x ∈ xs, 0 ≤ x) :
    (forecastProduct pid xs d).length = 30
    ∧ ∀ i (hi : i < (forecastProduct pid xs d).length),
        ((forecastProduct pid xs d).get ⟨i, hi⟩).product_id = pid
        ∧ ((forecastProduct pid xs d).get ⟨i, hi⟩).forecast_date = d + 1 + i
        ∧ ((forecastProduct pid xs d).get ⟨i, hi⟩).forecasted_demand = round1 (ema7 xs)
        ∧ ((forecastProduct pid xs d).get ⟨i, hi⟩).lower_bound = round1 (ema7 xs * 0.80)
        ∧ ((forecastProduct pid xs d).get ⟨i, hi⟩).upper_bound = round1 (ema7 xs * 1.20)
        ∧ ((forecastProduct pid xs d).get ⟨i, hi⟩).lower_bound
            ≤ ((forecastProduct pid xs d).get ⟨i, hi⟩).forecasted_demand
        ∧ ((forecastProduct pid xs d).get ⟨i, hi⟩).forecasted_demand
            ≤ ((forecastProduct pid xs d).get ⟨i, hi⟩).upper_bound := by
  have he : 0 ≤ ema7 xs := ema7_nonneg xs hpos
  have hlow : round1 (ema7 xs * 0.80) ≤ round1 (ema7 xs) := round1_mono (by nlinarith)
  have hup : round1 (ema7 xs) ≤ round1 (ema7 xs * 1.20) := round1_mono (by nlinarith)
  unfold forecastProduct
  rw [if_pos hlen]
  refine ⟨by simp, ?_⟩
  intro i hi
  simp only [List.get_eq_getElem, List.getElem_map, List.getElem_range]
  exact ⟨trivial, trivial, trivial, trivial, trivial, hlow, hup⟩

/-- Witness for C3 at a concrete eligible series. -/
theorem C3_witness : (forecastProduct "P0001" (List.replicate 61 (1 : ℚ)) 0).length = 30 :=
  (C3_forecast_rows "P0001" (List.replicate 61 1) 0
    (by simp)
    (fun x hx => by
      rw [List.eq_of_mem_replicate hx]
      norm_num)).1

/-- Counterexample to claim C8 as stated: a gap-filled series of exactly 60
days has "at least the minimum history length of 60 days", yet the code's
`if len(daily_demand) > 60` gate skips it, producing zero forecast rows. -/
theorem C8_counterexample :
    60 ≤ (List.replicate 60 (1 : ℚ)).length
    ∧ forecastProduct "P0001" (List.replicate 60 1) 0 = [] := by
  constructor
  · simp
  · unfold forecastProduct
    rw [if_neg (by simp)]

/-- Claim C8 as amended: a top-5 product is forecasted exactly when its
gap-filled series is strictly longer than 60 days (61 or more); at 60 days or
fewer it is skipped softly, contributing zero rows with no error. -/
theorem C8_history_gate (pid : String) (xs : List ℚ) (d : ℕ) :
    (xs.length ≤ 60 → forecastProduct pid xs d = [])
    ∧ (60 < xs.length → (forecastProduct pid xs d).length = 30) := by
  constructor
  · intro hle
    unfold forecastProduct
    rw [if_neg (by omega)]
  · intro hlt
    unfold forecastProduct
    rw [if_pos hlt]
    simp

/-- Witness for the amended C8 on both sides of the gate. -/
theorem C8_witness :
    forecastProduct "P0002" (List.replicate 59 (1 : ℚ)) 0 = []
    ∧ (forecastProduct "P0002" (List.replicate 61 (1 : ℚ)) 0).length = 30 :=
  ⟨(C8_history_gate "P0002" (List.replicate 59 1) 0).1 (by simp),
   (C8_history_gate "P0002" (List.replicate 61 1) 0).2 (by simp)⟩

/-- Claim C5: `safety_stock = round(1.65·demand_std·√lead_time)` — the
executable embedding agrees with the claimed real-valued formula for any
nonnegative `demand_std` — `optimal_reorder_point` is
`round(avg_demand·lead_time + safety_stock)`, and at `demand_std = 10`,
`lead_time = 9` the safety stock is exactly 50 (`round 49.5 = 50`, the same
under numpy's half-even tie rule since 50 is even). -/
theorem C5_safety_stock_reorder (σ : ℚ) (hσ : 0 ≤ σ) (L : ℕ) (d : ℚ) :
    ((safety_stock σ L : ℤ) = round ((((1.65 * σ : ℚ)) : ℝ) * Real.sqrt (L : ℝ)))
    ∧ optimal_reorder_point d σ L = round (d * (L : ℚ) + (safety_stock σ L : ℚ))
    ∧ safety_stock 10 9 = 50 := by
  refine ⟨?_, rfl, ?_⟩
  · have hq : (0 : ℚ) ≤ (1.65 * σ) ^ 2 * L := by positivity
    have hb := roundSqrt_eq_round_sqrt ((1.65 * σ) ^ 2 * L) hq
    have hgoal : (safety_stock σ L : ℤ)
        = round (Real.sqrt ((((1.65 * σ) ^ 2 * L : ℚ)) : ℝ)) := hb
    rw [hgoal]
    congr 1
    have ha : (0 : ℝ) ≤ (((1.65 * σ : ℚ)) : ℝ) := by
      have : (0 : ℚ) ≤ 1.65 * σ := by nlinarith
      exact_mod_cast this
    have hcast : ((((1.65 * σ) ^ 2 * L : ℚ)) : ℝ)
        = ((((1.65 * σ : ℚ)) : ℝ)) ^ 2 * (L : ℝ) := by push_cast; ring
    rw [hcast, Real.sqrt_mul (sq_nonneg _) ((L : ℕ) : ℝ), Real.sqrt_sq ha]
  · show roundSqrt ((1.65 * (10 : ℚ)) ^ 2 * ((9 : ℕ) : ℚ)) = 50
    rw [show ((1.65 * (10 : ℚ)) ^ 2 * ((9 : ℕ) : ℚ)) = 9801 / 4 by norm_num]
    have hsq : Nat.sqrt (Int.toNat ⌊(9801 / 4 : ℚ)⌋) = 49 := by
      rw [show (⌊(9801 / 4 : ℚ)⌋ : ℤ) = 2450 by norm_num]
      show Nat.sqrt 2450 = 49
      rw [show (2450 : ℕ) = 49 * 49 + 49 by norm_num]
      exact Nat.sqrt_add_eq 49 (by norm_num)
    unfold roundSqrt
    rw [hsq, if_pos (by norm_num)]

/-- Witness for C5 at the claim's own concrete inputs. -/
theorem C5_witness : safety_stock 10 9 = 50 :=
  (C5_safety_stock_reorder 10 (by norm_num) 9 0).2.2

/-- Claim C4: the EOQ is `round(√(2·annual_demand·ordering_cost/holding_cost))`
with `ordering_cost = 100` and `holding_cost = unit_cost·0.25`, and doubling
`annual_demand` (all else fixed) multiplies the order quantity by `√2` within
rounding: the rounded values differ from the exact `√2` ratio by at most half
a unit on each rounding, a total slack of `(1+√2)/2`. -/
theorem C4_eoq_sqrt2_scaling (D c : ℚ) (hD : 0 ≤ D) (hc : 0 < c) :
    ((optimal_order_quantity D c : ℤ)
        = round (Real.sqrt ((2 * D * ordering_cost / holding_cost c : ℚ) : ℝ)))
    ∧ |((optimal_order_quantity (2 * D) c : ℝ))
          - Real.sqrt 2 * ((optimal_order_quantity D c : ℕ) : ℝ)|
        ≤ (1 + Real.sqrt 2) / 2 := by
  have hhc : 0 < holding_cost c := by
    unfold holding_cost holding_cost_rate
    positivity
  have hq1 : (0 : ℚ) ≤ 2 * D * ordering_cost / holding_cost c := by
    unfold ordering_cost
    positivity
  have hq2 : (0 : ℚ) ≤ 2 * (2 * D) * ordering_cost / holding_cost c := by
    unfold ordering_cost
    positivity
  have hb1 := roundSqrt_eq_round_sqrt (2 * D * ordering_cost / holding_cost c) hq1
  have hb2 := roundSqrt_eq_round_sqrt (2 * (2 * D) * ordering_cost / holding_cost c) hq2
  refine ⟨hb1, ?_⟩
  set s : ℝ := Real.sqrt ((2 * D * ordering_cost / holding_cost c : ℚ) : ℝ) with hs
  have hrel : ((2 * (2 * D) * ordering_cost / holding_cost c : ℚ) : ℝ)
      = 2 * ((2 * D * ordering_cost / holding_cost c : ℚ) : ℝ) := by
    push_cast
    ring
  have hs2 : Real.sqrt ((2 * (2 * D) * ordering_cost / holding_cost c : ℚ) : ℝ)
      = Real.sqrt 2 * s := by
    rw [hrel, Real.sqrt_mul (by norm_num) _]
  have e1 : (((optimal_order_quantity D c : ℕ)) : ℝ) = ((round s : ℤ) : ℝ) := by
    exact_mod_cast hb1
  have e2 : (((optimal_order_quantity (2 * D) c : ℕ)) : ℝ)
      = ((round (Real.sqrt 2 * s) : ℤ) : ℝ) := by
    rw [← hs2]
    exact_mod_cast hb2
  rw [e1, e2]
  have hsqrt2 : (0 : ℝ) ≤ Real.sqrt 2 := Real.sqrt_nonneg 2
  have hsplit : ((round (Real.sqrt 2 * s) : ℤ) : ℝ) - Real.sqrt 2 * ((round s : ℤ) : ℝ)
      = (((round (Real.sqrt 2 * s) : ℤ) : ℝ) - Real.sqrt 2 * s)
        + Real.sqrt 2 * (s - ((round s : ℤ) : ℝ)) := by ring
  rw [hsplit]
  refine le_trans (abs_add _ _) ?_
  have hA : |((round (Real.sqrt 2 * s) : ℤ) : ℝ) - Real.sqrt 2 * s| ≤ 1 / 2 := by
    rw [abs_sub_comm]
    exact abs_sub_round _
  have hB : |Real.sqrt 2 * (s - ((round s : ℤ) : ℝ))| ≤ Real.sqrt 2 * (1 / 2) := by
    rw [abs_mul, abs_of_nonneg hsqrt2]
    exact mul_le_mul_of_nonneg_left (abs_sub_round s) hsqrt2
  linarith

/-- Witness for C4 at concrete inputs (`annual_demand = 100`, `unit_cost = 8`). -/
theorem C4_witness :
    ((optimal_order_quantity 100 8 : ℤ)
        = round (Real.sqrt ((2 * 100 * ordering_cost / holding_cost 8 : ℚ) : ℝ)))
    ∧ |((optimal_order_quantity (2 * 100) 8 : ℝ))
          - Real.sqrt 2 * ((optimal_order_quantity 100 8 : ℕ) : ℝ)|
        ≤ (1 + Real.sqrt 2) / 2 :=
  C4_eoq_sqrt2_scaling 100 8 (by norm_num) (by norm_num)

/-- `drop_duplicates` only ever removes rows: the kept rows are a sublist of
the input, in input order. -/
theorem drop_duplicates_sublist {α κ : Type} [DecidableEq κ] (key : α → κ)
    (l : List α) (seen : List κ) : (drop_duplicates key l seen).Sublist l := by
  induction l generalizing seen with
  | nil => simp [drop_duplicates]
  | cons x xs ih =>
      simp only [drop_duplicates]
      by_cases h : key x ∈ seen
      · rw [if_pos h]
        exact (ih seen).trans (List.sublist_cons_self x xs)
      · rw [if_neg h]
        exact (ih (key x :: seen)).cons₂ x

/-- Every kept row's key avoids the accumulator of already-seen keys. -/
theorem drop_duplicates_key_not_seen {α κ : Type} [DecidableEq κ] (key : α → κ)
    (l : List α) (seen : List κ) :
    ∀ a ∈ drop_duplicates key l seen, key a ∉ seen := by
  induction l generalizing seen with
  | nil => simp [drop_duplicates]
  | cons x xs ih =>
      simp only [drop_duplicates]
      by_cases h : key x ∈ seen
      · rw [if_pos h]
        exact ih seen
      · rw [if_neg h]
        intro a ha
        rcases List.mem_cons.mp ha with rfl | ha
        · exact h
        · have := ih (key x :: seen) a ha
          exact fun hmem => this (List.mem_cons_of_mem _ hmem)

/-- After deduplication the keys are pairwise distinct. -/
theorem drop_duplicates_nodup_keys {α κ : Type} [DecidableEq κ] (key : α → κ)
    (l : List α) (seen : List κ) :
    ((drop_duplicates key l seen).map key).Nodup := by
  induction l generalizing seen with
  | nil => simp [drop_duplicates]
  | cons x xs ih =>
      simp only [drop_duplicates]
      by_cases h : key x ∈ seen
      · rw [if_pos h]
        exact ih seen
      · rw [if_neg h]
        simp only [List.map_cons, List.nodup_cons]
        refine ⟨?_, ih (key x :: seen)⟩
        intro hmem
        rcases List.mem_map.mp hmem with ⟨a, ha, hka⟩
        have hnot := drop_duplicates_key_not_seen key xs (key x :: seen) a ha
        exact hnot (by rw [hka]; exact List.mem_cons_self _ _)

/-- Per-key characterization of `drop_duplicates`: for a key not yet seen,
the kept rows with that key are exactly the first input row with that key;
for an already-seen key nothing is kept. -/
theorem drop_duplicates_filter {α κ : Type} [DecidableEq κ] (key : α → κ) (k : κ) :
    ∀ (l : List α) (seen : List κ),
    (k ∈ seen → (drop_duplicates key l seen).filter (fun a => decide (key a = k)) = [])
    ∧ (k ∉ seen → (drop_duplicates key l seen).filter (fun a => decide (key a = k))
        = (l.filter (fun a => decide (key a = k))).take 1) := by
  intro l
  induction l with
  | nil => intro seen; simp [drop_duplicates]
  | cons x xs ih =>
      intro seen
      constructor
      · intro hk
        simp only [drop_duplicates]
        by_cases h : key x ∈ seen
        · rw [if_pos h]
          exact (ih seen).1 hk
        · rw [if_neg h]
          have hne : ¬ key x = k := fun he => h (he ▸ hk)
          rw [List.filter_cons, if_neg (by simpa using hne)]
          exact (ih (key x :: seen)).1 (List.mem_cons_of_mem _ hk)
      · intro hk
        simp only [drop_duplicates]
        by_cases h : key x ∈ seen
        · rw [if_pos h]
          have hne : ¬ key x = k := fun he => hk (he ▸ h)
          rw [List.filter_cons, if_neg (by simpa using hne)]
          exact (ih seen).2 hk
        · rw [if_neg h]
          by_cases hxk : key x = k
          · rw [List.filter_cons, if_pos (by simpa using hxk),
              List.filter_cons, if_pos (by simpa using hxk), List.take_succ_cons]
            rw [(ih (key x :: seen)).1 (by rw [← hxk]; exact List.mem_cons_self _ _)]
            simp
          · rw [List.filter_cons, if_neg (by simpa using hxk),
              List.filter_cons, if_neg (by simpa using hxk)]
            refine (ih (key x :: seen)).2 ?_
            simp only [List.mem_cons, not_or]
            exact ⟨fun he => hxk he.symm, hk⟩

/-- Claim C10: the transformation stage deduplicates by key (sales by
`transaction_id`, supply orders by `order_id`) keeping the first occurrence:
the result is a sublist of the input (rows are silently dropped, never
rejected), its keys are pairwise distinct so every downstream aggregation
counts each key at most once, and for every key the kept rows are exactly the
first input row carrying it. -/
theorem C10_dedup_first_occurrence {α κ : Type} [DecidableEq κ] (key : α → κ)
    (l : List α) :
    (drop_duplicates key l []).Sublist l
    ∧ ((drop_duplicates key l []).map key).Nodup
    ∧ (∀ k : κ, (drop_duplicates key l []).filter (fun a => decide (key a = k))
        = (l.filter (fun a => decide (key a = k))).take 1)
    ∧ (∀ k : κ, ((drop_duplicates key l []).map key).count k ≤ 1) := by
  refine ⟨drop_duplicates_sublist key l [], drop_duplicates_nodup_keys key l [],
    ?_, ?_⟩
  · intro k
    exact (drop_duplicates_filter key k l []).2 (by simp)
  · intro k
    exact List.nodup_iff_count_le_one.mp (drop_duplicates_nodup_keys key l []) k

end SupplyChain
